import Mathlib

/-!
Verification of the messaging-service core against its design document.

The definitions below are a shallow embedding of the Python source:

* `LRUCache`, `lruSetitem`, `lruGetitem`, `lruContains` embed
  `src/providers/cache.py` (the `OrderedDict` is modelled as a list of
  key/value pairs, front = oldest, back = most recently touched).
* conversation resolution embeds
  `src/app/repositories/conversation_repository.py` and the
  `_find_or_create_conversation` helper of the services.
* the webhook validators embed
  `src/app/services/receive_sms_mms_webhook_service.py` and
  `src/app/services/receive_email_webhook_service.py`.
* the provider clients embed `src/app/clients/sms_provider_client.py` and
  `src/app/clients/email_provider_client.py`.

Machine datetimes are modelled as `Int` values and the standard-library
ISO-8601 parser `datetime.fromisoformat` (external to the repository) is a
parameter `fromiso : String → Option Int` of every definition that uses it;
clock reads (`datetime.now`) are a parameter `now : Int`.
-/

/-- Model of `providers/cache.py` `LRUCache`: the `OrderedDict` is a list of
key/value pairs whose first element is the oldest entry and whose last element
is the most recently touched entry. -/
structure LRUCache (α : Type) where
  cache : List (String × α)
  maxSize : Nat
deriving DecidableEq

/-- The `LRUCache(max_size=n)` constructor: empty ordered dict. -/
def lruEmpty (α : Type) (maxSize : Nat) : LRUCache α :=
  { cache := [], maxSize := maxSize }

/-- The key list of the cache, oldest first (`self.cache.keys()`). -/
def cacheKeys {α : Type} (c : LRUCache α) : List String :=
  c.cache.map Prod.fst

/-- `OrderedDict.move_to_end(key)`: move the (unique) entry for `key` to the
back, keeping its value.  (Python raises `KeyError` when the key is absent; the
source only calls it on present keys, on which this model agrees.) -/
def moveToEnd {α : Type} (l : List (String × α)) (key : String) : List (String × α) :=
  match l.find? (fun e => e.1 == key) with
  | none => l
  | some e => l.eraseP (fun x => x.1 == key) ++ [e]

/-- `LRUCache.__setitem__` from `providers/cache.py`, translated line by line:
if the key is present it is only moved to the end (NOTE: the source does not
assign the new value in this branch); otherwise the pair is appended and, when
the size now exceeds `max_size`, the first (oldest) item is popped. -/
def lruSetitem {α : Type} (c : LRUCache α) (key : String) (value : α) : LRUCache α :=
  if c.cache.any (fun e => e.1 == key) then
    { c with cache := moveToEnd c.cache key }
  else
    let cache1 := c.cache ++ [(key, value)]
    if c.maxSize < cache1.length then
      { c with cache := cache1.drop 1 }
    else
      { c with cache := cache1 }

/-- `LRUCache.__getitem__`: `none` models the `KeyError`; on success the key is
moved to the end (read counts as a touch) and its stored value is returned. -/
def lruGetitem {α : Type} (c : LRUCache α) (key : String) : Option (α × LRUCache α) :=
  match c.cache.find? (fun e => e.1 == key) with
  | none => none
  | some e => some (e.2, { c with cache := moveToEnd c.cache key })

/-- `LRUCache.__contains__`: key presence, no recency update. -/
def lruContains {α : Type} (c : LRUCache α) (key : String) : Bool :=
  c.cache.any (fun e => e.1 == key)

/-- Insert each key of `ks` in order, with value `f k` (scenario helper for
the eviction-order property). -/
def insertKeys {α : Type} (c : LRUCache α) (ks : List String) (f : String → α) : LRUCache α :=
  ks.foldl (fun c k => lruSetitem c k (f k)) c

theorem cacheKeys_mem_iff {α : Type} (c : LRUCache α) (key : String) :
    (c.cache.any fun e => e.1 == key) = true ↔ key ∈ cacheKeys c := by
  simp [cacheKeys, List.any_eq_true, List.mem_map]

theorem maxSize_lruSetitem {α : Type} (c : LRUCache α) (key : String) (v : α) :
    (lruSetitem c key v).maxSize = c.maxSize := by
  unfold lruSetitem
  split
  · rfl
  · dsimp only
    split
    · rfl
    · rfl

theorem cacheKeys_length {α : Type} (c : LRUCache α) :
    (cacheKeys c).length = c.cache.length := by
  simp [cacheKeys]

theorem cacheKeys_lruSetitem_fresh {α : Type} (c : LRUCache α) (key : String) (v : α)
    (hfresh : key ∉ cacheKeys c) (hlen : c.cache.length ≤ c.maxSize) :
    cacheKeys (lruSetitem c key v)
      = (cacheKeys c ++ [key]).drop (c.cache.length + 1 - c.maxSize) := by
  have hany : (c.cache.any fun e => e.1 == key) = false := by
    rw [Bool.eq_false_iff]
    intro h
    exact hfresh ((cacheKeys_mem_iff c key).mp h)
  unfold lruSetitem
  rw [hany]
  simp only [Bool.false_eq_true, if_false]
  split
  · rename_i hover
    simp only [List.length_append, List.length_cons, List.length_nil] at hover
    have hdrop : c.cache.length + 1 - c.maxSize = 1 := by omega
    rw [hdrop]
    simp [cacheKeys, List.map_drop]
  · rename_i hover
    simp only [List.length_append, List.length_cons, List.length_nil] at hover
    have hdrop : c.cache.length + 1 - c.maxSize = 0 := by omega
    rw [hdrop]
    simp [cacheKeys]

theorem length_lruSetitem_fresh {α : Type} (c : LRUCache α) (key : String) (v : α)
    (hfresh : key ∉ cacheKeys c) (hlen : c.cache.length ≤ c.maxSize) :
    (lruSetitem c key v).cache.length = min (c.cache.length + 1) c.maxSize := by
  have hk := cacheKeys_lruSetitem_fresh c key v hfresh hlen
  have := cacheKeys_length (lruSetitem c key v)
  rw [hk] at this
  simp only [List.length_drop, List.length_append, List.length_cons, List.length_nil,
    cacheKeys_length] at this
  omega

theorem cacheKeys_insertKeys_fresh {α : Type} (f : String → α) (ks : List String) :
    ∀ (c : LRUCache α), ks.Nodup → (∀ k ∈ ks, k ∉ cacheKeys c) →
      c.cache.length ≤ c.maxSize →
      cacheKeys (insertKeys c ks f)
        = (cacheKeys c ++ ks).drop (c.cache.length + ks.length - c.maxSize) := by
  induction ks with
  | nil =>
    intro c _ _ hlen
    simp [insertKeys, Nat.sub_eq_zero_of_le hlen]
  | cons a ks ih =>
    intro c hnd hfresh hlen
    have hstep : insertKeys c (a :: ks) f = insertKeys (lruSetitem c a (f a)) ks f := rfl
    have hfa : a ∉ cacheKeys c := hfresh a (List.mem_cons_self a ks)
    have hk1 := cacheKeys_lruSetitem_fresh c a (f a) hfa hlen
    have hl1 := length_lruSetitem_fresh c a (f a) hfa hlen
    have hm1 := maxSize_lruSetitem c a (f a)
    have hfresh1 : ∀ k ∈ ks, k ∉ cacheKeys (lruSetitem c a (f a)) := by
      intro k hk hmem
      rw [hk1] at hmem
      rcases List.mem_append.mp (List.mem_of_mem_drop hmem) with h | h
      · exact hfresh k (List.mem_cons_of_mem a hk) h
      · simp only [List.mem_singleton] at h
        subst h
        exact (List.nodup_cons.mp hnd).1 hk
    have hlen1 : (lruSetitem c a (f a)).cache.length ≤ (lruSetitem c a (f a)).maxSize := by
      rw [hl1, hm1]
      omega
    rw [hstep, ih _ (List.nodup_cons.mp hnd).2 hfresh1 hlen1, hk1, hl1, hm1]
    have hd1 : c.cache.length + 1 - c.maxSize ≤ (cacheKeys c ++ [a]).length := by
      simp only [List.length_append, List.length_cons, List.length_nil, cacheKeys_length]
      omega
    rw [← List.drop_append_of_le_length hd1, List.drop_drop]
    have harr : (cacheKeys c ++ [a]) ++ ks = cacheKeys c ++ (a :: ks) := by
      simp
    rw [harr]
    congr 1
    simp only [List.length_cons]
    omega

theorem maxSize_insertKeys {α : Type} (f : String → α) (ks : List String) :
    ∀ (c : LRUCache α), (insertKeys c ks f).maxSize = c.maxSize := by
  induction ks with
  | nil => intro c; rfl
  | cons a ks ih =>
    intro c
    have hstep : insertKeys c (a :: ks) f = insertKeys (lruSetitem c a (f a)) ks f := rfl
    rw [hstep, ih, maxSize_lruSetitem]

theorem lruSetitem_fresh_no_evict {α : Type} (c : LRUCache α) (key : String) (v : α)
    (hfresh : key ∉ cacheKeys c) (hroom : c.cache.length + 1 ≤ c.maxSize) :
    (lruSetitem c key v).cache = c.cache ++ [(key, v)] := by
  have hany : (c.cache.any fun e => e.1 == key) = false := by
    rw [Bool.eq_false_iff]
    intro h
    exact hfresh ((cacheKeys_mem_iff c key).mp h)
  unfold lruSetitem
  rw [hany]
  simp only [Bool.false_eq_true, if_false]
  rw [if_neg]
  simp only [List.length_append, List.length_cons, List.length_nil]
  omega

theorem cache_insertKeys_no_evict {α : Type} (f : String → α) (ks : List String) :
    ∀ (c : LRUCache α), ks.Nodup → (∀ k ∈ ks, k ∉ cacheKeys c) →
      c.cache.length + ks.length ≤ c.maxSize →
      (insertKeys c ks f).cache = c.cache ++ ks.map (fun k => (k, f k)) := by
  induction ks with
  | nil => intro c _ _ _; simp [insertKeys]
  | cons a ks ih =>
    intro c hnd hfresh hroom
    simp only [List.length_cons] at hroom
    have hstep : insertKeys c (a :: ks) f = insertKeys (lruSetitem c a (f a)) ks f := rfl
    have hfa : a ∉ cacheKeys c := hfresh a (List.mem_cons_self a ks)
    have hc1 : (lruSetitem c a (f a)).cache = c.cache ++ [(a, f a)] :=
      lruSetitem_fresh_no_evict c a (f a) hfa (by omega)
    have hk1 : cacheKeys (lruSetitem c a (f a)) = cacheKeys c ++ [a] := by
      simp [cacheKeys, hc1]
    have hfresh1 : ∀ k ∈ ks, k ∉ cacheKeys (lruSetitem c a (f a)) := by
      intro k hk hmem
      rw [hk1] at hmem
      rcases List.mem_append.mp hmem with h | h
      · exact hfresh k (List.mem_cons_of_mem a hk) h
      · simp only [List.mem_singleton] at h
        subst h
        exact (List.nodup_cons.mp hnd).1 hk
    have := ih (lruSetitem c a (f a)) (List.nodup_cons.mp hnd).2 hfresh1
      (by rw [maxSize_lruSetitem, hc1]; simp; omega)
    rw [hstep, this, hc1]
    simp

theorem moveToEnd_cons_self {α : Type} (k : String) (v : α) (t : List (String × α)) :
    moveToEnd ((k, v) :: t) k = t ++ [(k, v)] := by
  simp [moveToEnd, List.find?_cons, List.eraseP_cons]

theorem lruGetitem_head {α : Type} (c : LRUCache α) (k : String) (v : α)
    (t : List (String × α)) (h : c.cache = (k, v) :: t) :
    lruGetitem c k = some (v, { c with cache := t ++ [(k, v)] }) := by
  unfold lruGetitem
  rw [h, moveToEnd_cons_self]
  simp [List.find?_cons]

theorem lruContains_iff_mem {α : Type} (c : LRUCache α) (key : String) :
    lruContains c key = true ↔ key ∈ cacheKeys c :=
  cacheKeys_mem_iff c key

theorem lruContains_eq_false_iff {α : Type} (c : LRUCache α) (key : String) :
    lruContains c key = false ↔ key ∉ cacheKeys c := by
  rw [Bool.eq_false_iff]
  constructor
  · intro h hmem
    exact h ((lruContains_iff_mem c key).mpr hmem)
  · intro h hmem
    exact h ((lruContains_iff_mem c key).mp hmem)

/-- C2: inserting `N + 1` distinct keys into an empty capacity-`N` cache
evicts exactly the first key and keeps the rest; and when the first key is
re-touched via `get` after the second key's insertion and before the last
key's insertion, the second key is the one evicted and the first key survives.
The scenario is parameterised by the split `k1 :: k2 :: mid ++ post` of the
key sequence, the `get` happening after the insertions of `k1 :: k2 :: mid`
and before those of `post` (so `post` is nonempty and ends with the last key). -/
theorem lru_eviction_order {α : Type} (f : String → α) (N : Nat) (hN : 1 ≤ N) :
    (∀ (k1 : String) (rest : List String), rest.length = N → (k1 :: rest).Nodup →
      cacheKeys (insertKeys (lruEmpty α N) (k1 :: rest) f) = rest
        ∧ lruContains (insertKeys (lruEmpty α N) (k1 :: rest) f) k1 = false
        ∧ ∀ k ∈ rest, lruContains (insertKeys (lruEmpty α N) (k1 :: rest) f) k = true)
    ∧ (∀ (k1 k2 : String) (mid post : List String), post ≠ [] →
        2 + mid.length + post.length = N + 1 →
        (k1 :: k2 :: (mid ++ post)).Nodup →
        lruGetitem (insertKeys (lruEmpty α N) (k1 :: k2 :: mid) f) k1
          = some (f k1,
              { cache := ((k2, f k2) :: mid.map (fun k => (k, f k))) ++ [(k1, f k1)],
                maxSize := N })
        ∧ cacheKeys (insertKeys
              { cache := ((k2, f k2) :: mid.map (fun k => (k, f k))) ++ [(k1, f k1)],
                maxSize := N } post f) = (mid ++ [k1]) ++ post
        ∧ lruContains (insertKeys
              { cache := ((k2, f k2) :: mid.map (fun k => (k, f k))) ++ [(k1, f k1)],
                maxSize := N } post f) k1 = true
        ∧ lruContains (insertKeys
              { cache := ((k2, f k2) :: mid.map (fun k => (k, f k))) ++ [(k1, f k1)],
                maxSize := N } post f) k2 = false) := by
  constructor
  · intro k1 rest hlen hnd
    have hkeys := cacheKeys_insertKeys_fresh f (k1 :: rest) (lruEmpty α N) hnd
      (by intro k _ hmem; simp [cacheKeys, lruEmpty] at hmem)
      (by simp [lruEmpty])
    simp only [lruEmpty, cacheKeys, List.map_nil, List.nil_append, List.length_nil,
      List.length_cons, hlen, Nat.zero_add] at hkeys
    have hdrop : N + 1 - N = 1 := by omega
    rw [hdrop] at hkeys
    simp only [List.drop_succ_cons, List.drop_zero] at hkeys
    have hkeys' : cacheKeys (insertKeys (lruEmpty α N) (k1 :: rest) f) = rest := hkeys
    refine ⟨hkeys', ?_, ?_⟩
    · rw [lruContains_eq_false_iff, hkeys']
      exact (List.nodup_cons.mp hnd).1
    · intro k hk
      rw [lruContains_iff_mem, hkeys']
      exact hk
  · intro k1 k2 mid post hpost hlen hnd
    have hpostlen : 1 ≤ post.length := by
      cases post with
      | nil => exact absurd rfl hpost
      | cons a t => simp
    have hndpre : (k1 :: k2 :: mid).Nodup := by
      refine List.Nodup.sublist ?_ hnd
      exact (List.sublist_append_left mid post).cons₂ k2 |>.cons₂ k1
    have hc1 : (insertKeys (lruEmpty α N) (k1 :: k2 :: mid) f).cache
        = (k1, f k1) :: (k2, f k2) :: mid.map (fun k => (k, f k)) := by
      have := cache_insertKeys_no_evict f (k1 :: k2 :: mid) (lruEmpty α N) hndpre
        (by intro k _ hmem; simp [cacheKeys, lruEmpty] at hmem)
        (by simp [lruEmpty, List.length_cons]; omega)
      simpa [lruEmpty] using this
    have hm1 : (insertKeys (lruEmpty α N) (k1 :: k2 :: mid) f).maxSize = N :=
      maxSize_insertKeys f (k1 :: k2 :: mid) (lruEmpty α N)
    have hget := lruGetitem_head (insertKeys (lruEmpty α N) (k1 :: k2 :: mid) f) k1 (f k1)
      ((k2, f k2) :: mid.map (fun k => (k, f k))) hc1
    have hgeteq : lruGetitem (insertKeys (lruEmpty α N) (k1 :: k2 :: mid) f) k1
        = some (f k1,
            { cache := ((k2, f k2) :: mid.map (fun k => (k, f k))) ++ [(k1, f k1)],
              maxSize := N }) := by
      rw [hget, hm1]
    set c2 : LRUCache α :=
      { cache := ((k2, f k2) :: mid.map (fun k => (k, f k))) ++ [(k1, f k1)],
        maxSize := N } with hc2def
    have hc2keys : cacheKeys c2 = (k2 :: mid) ++ [k1] := by
      simp [cacheKeys, hc2def, Function.comp_def]
    have hndall := hnd
    have hk1nd := List.nodup_cons.mp hndall
    have hk2nd := List.nodup_cons.mp hk1nd.2
    have hmidpostnd := hk2nd.2
    have hpostnd : post.Nodup := (List.nodup_append.mp hmidpostnd).2.1
    have hfresh2 : ∀ k ∈ post, k ∉ cacheKeys c2 := by
      intro k hk hmem
      rw [hc2keys] at hmem
      rcases List.mem_append.mp hmem with h | h
      · rcases List.mem_cons.mp h with h' | h'
        · subst h'
          exact hk2nd.1 (List.mem_append.mpr (Or.inr hk))
        · rcases List.nodup_append.mp hmidpostnd with ⟨_, _, hdisj⟩
          exact hdisj h' hk
      · simp only [List.mem_singleton] at h
        subst h
        exact hk1nd.1 (List.mem_cons.mpr (Or.inr (List.mem_append.mpr (Or.inr hk))))
    have hc2len : c2.cache.length = mid.length + 2 := by
      simp [hc2def]
    have hkeysfin := cacheKeys_insertKeys_fresh f post c2 hpostnd hfresh2
      (by rw [hc2len]; simp [hc2def]; omega)
    rw [hc2keys, hc2len] at hkeysfin
    have hdrop : mid.length + 2 + post.length - c2.maxSize = 1 := by
      have : c2.maxSize = N := by simp [hc2def]
      omega
    rw [hdrop] at hkeysfin
    have hkeysfin' : cacheKeys (insertKeys c2 post f) = (mid ++ [k1]) ++ post := by
      rw [hkeysfin]
      simp
    refine ⟨hgeteq, hkeysfin', ?_, ?_⟩
    · rw [lruContains_iff_mem, hkeysfin']
      exact List.mem_append.mpr (Or.inl (List.mem_append.mpr (Or.inr (List.mem_singleton.mpr rfl))))
    · rw [lruContains_eq_false_iff, hkeysfin']
      intro hmem
      rcases List.mem_append.mp hmem with h | h
      · rcases List.mem_append.mp h with h' | h'
        · exact hk2nd.1 (List.mem_append.mpr (Or.inl h'))
        · simp only [List.mem_singleton] at h'
          exact hk1nd.1 (by rw [h']; exact List.mem_cons_self k1 (mid ++ post))
      · exact hk2nd.1 (List.mem_append.mpr (Or.inr h))

/-- Witness for C2 at `N = 2`, keys `a, b, c`, with the `get` of scenario two
happening right after the insertion of `b`. -/
theorem lru_eviction_order_witness :
    (cacheKeys (insertKeys (lruEmpty Nat 2) ["a", "b", "c"] (fun _ => 0)) = ["b", "c"]
      ∧ lruContains (insertKeys (lruEmpty Nat 2) ["a", "b", "c"] (fun _ => 0)) "a" = false
      ∧ ∀ k ∈ ["b", "c"],
          lruContains (insertKeys (lruEmpty Nat 2) ["a", "b", "c"] (fun _ => 0)) k = true)
    ∧ (lruGetitem (insertKeys (lruEmpty Nat 2) ["a", "b"] (fun _ => 0)) "a"
        = some (0, { cache := [("b", 0), ("a", 0)], maxSize := 2 })
      ∧ cacheKeys
          (insertKeys { cache := [("b", 0), ("a", 0)], maxSize := 2 } ["c"] (fun _ => 0))
          = ["a", "c"]
      ∧ lruContains
          (insertKeys { cache := [("b", 0), ("a", 0)], maxSize := 2 } ["c"] (fun _ => 0))
          "a" = true
      ∧ lruContains
          (insertKeys { cache := [("b", 0), ("a", 0)], maxSize := 2 } ["c"] (fun _ => 0))
          "b" = false) :=
  ⟨(lru_eviction_order (fun _ => 0) 2 (by decide)).1 "a" ["b", "c"] (by decide) (by decide),
   (lru_eviction_order (fun _ => 0) 2 (by decide)).2 "a" "b" [] ["c"] (by decide) (by decide)
     (by decide)⟩

/-- C3: evaluation of the source `__setitem__` at a present key.  The spec
says `put(key, value)` overwrites the stored value so that an immediately
following `get(key)` returns the newly put value; the code's `__setitem__`
only calls `move_to_end` when the key exists and never assigns the value, so
after `put("a", 1); put("a", 2)` a `get("a")` still returns `1`, not `2`. -/
theorem lru_put_existing_key_keeps_old_value :
    (lruGetitem (lruSetitem (lruSetitem (lruEmpty Nat 2) "a" 1) "a" 2) "a").map Prod.fst
        = some 1
      ∧ (lruGetitem (lruSetitem (lruSetitem (lruEmpty Nat 2) "a" 1) "a" 2) "a").map Prod.fst
        ≠ some 2 := by
  constructor
  · rfl
  · decide

/-!
Conversation resolution: `ConversationRepository.get_by_participants`,
`ConversationRepository.create_empty` and the services'
`_find_or_create_conversation` (identical in `send_message_service.py`,
`receive_sms_mms_webhook_service.py` and `receive_email_webhook_service.py`).
`uuid4` conversation ids are modelled as a fresh-id counter; the database
row set is modelled as the list of conversations in insertion order, which is
also the order in which the unordered SELECT returns candidate rows. -/

/-- A stored conversation: its id and its participant addresses in insertion
order.  Participant rows carry no other data relevant to identity. -/
structure Conversation where
  id : Nat
  participants : List String
deriving DecidableEq

/-- The persistent store visible to the resolver: all conversations plus the
fresh-id counter standing in for `uuid4`. -/
structure ConvState where
  convs : List Conversation
  nextId : Nat
deriving DecidableEq

/-- Lexicographic code-point comparison of character lists: the order Python
uses to compare strings in `sorted(participants)`. -/
def charsLe : List Char → List Char → Bool
  | [], _ => true
  | _ :: _, [] => false
  | a :: as, b :: bs =>
    if a.toNat < b.toNat then true
    else if b.toNat < a.toNat then false
    else charsLe as bs

/-- Python string `<=`: lexicographic by Unicode code point. -/
def strLe (a b : String) : Bool :=
  charsLe a.data b.data

theorem charsLe_total : ∀ (as bs : List Char), charsLe as bs = true ∨ charsLe bs as = true
  | [], _ => Or.inl rfl
  | _ :: _, [] => Or.inr rfl
  | a :: as, b :: bs => by
    by_cases h1 : a.toNat < b.toNat
    · left
      simp [charsLe, h1]
    · by_cases h2 : b.toNat < a.toNat
      · right
        simp [charsLe, h2]
      · rcases charsLe_total as bs with h | h
        · left
          simp [charsLe, h1, h2, h]
        · right
          simp [charsLe, h1, h2, h]

theorem charsLe_cases {a b : Char} {as bs : List Char}
    (h : charsLe (a :: as) (b :: bs) = true) :
    a.toNat < b.toNat ∨ (a.toNat = b.toNat ∧ charsLe as bs = true) := by
  simp only [charsLe] at h
  by_cases hab : a.toNat < b.toNat
  · exact Or.inl hab
  · rw [if_neg hab] at h
    by_cases hba : b.toNat < a.toNat
    · rw [if_pos hba] at h
      exact absurd h (by simp)
    · rw [if_neg hba] at h
      exact Or.inr ⟨by omega, h⟩

theorem charsLe_trans : ∀ (as bs cs : List Char), charsLe as bs = true →
    charsLe bs cs = true → charsLe as cs = true
  | [], _, _, _, _ => rfl
  | _ :: _, [], _, h1, _ => by simp [charsLe] at h1
  | _ :: _, _ :: _, [], _, h2 => by simp [charsLe] at h2
  | a :: as, b :: bs, c :: cs, h1, h2 => by
    rcases charsLe_cases h1 with hab | ⟨hab, hrec1⟩ <;>
      rcases charsLe_cases h2 with hbc | ⟨hbc, hrec2⟩
    · simp only [charsLe]
      rw [if_pos (by omega)]
    · simp only [charsLe]
      rw [if_pos (by omega)]
    · simp only [charsLe]
      rw [if_pos (by omega)]
    · simp only [charsLe]
      rw [if_neg (by omega), if_neg (by omega)]
      exact charsLe_trans as bs cs hrec1 hrec2

theorem charsLe_antisymm : ∀ (as bs : List Char), charsLe as bs = true →
    charsLe bs as = true → as = bs
  | [], [], _, _ => rfl
  | [], _ :: _, _, h2 => by simp [charsLe] at h2
  | _ :: _, [], h1, _ => by simp [charsLe] at h1
  | a :: as, b :: bs, h1, h2 => by
    rcases charsLe_cases h1 with hab | ⟨hab, hrec1⟩ <;>
      rcases charsLe_cases h2 with hba | ⟨hba, hrec2⟩
    · omega
    · omega
    · omega
    · have hchar : a = b := by
        have hv : a.val = b.val := by
          have h2 : a.val.toNat = b.val.toNat := hab
          exact UInt32.toNat.inj h2
        exact Char.ext hv
      rw [hchar, charsLe_antisymm as bs hrec1 hrec2]

instance : IsTotal String (fun a b => strLe a b = true) :=
  ⟨fun a b => charsLe_total a.data b.data⟩

instance : IsTrans String (fun a b => strLe a b = true) :=
  ⟨fun a b c => charsLe_trans a.data b.data c.data⟩

instance : IsAntisymm String (fun a b => strLe a b = true) :=
  ⟨fun a b h1 h2 => String.ext (charsLe_antisymm a.data b.data h1 h2)⟩

/-- Python `sorted(participants)` on address strings. -/
def sortAddrs (l : List String) : List String :=
  List.insertionSort (fun a b => strLe a b = true) l

/-- The inner comparison of `get_by_participants`:
`sorted([p.address for p in conversation.participants]) == sorted_participants`. -/
def participantsMatch (sorted_participants : List String) (c : Conversation) : Bool :=
  sortAddrs c.participants == sorted_participants

/-- The per-address candidate query
(`...join(participants).where(participants.any(address=a))`) followed by the
first-match scan of the inner `for` loop. -/
def findByAddr (convs : List Conversation) (a : String)
    (sorted_participants : List String) : Option Conversation :=
  (convs.filter (fun c => c.participants.contains a)).find?
    (participantsMatch sorted_participants)

/-- The outer `for participant_address in sorted_participants` loop of
`get_by_participants`: returns at the first address whose candidate list holds
an exact sorted-participants match, else falls through to `None`. -/
def getByParticipantsGo (convs : List Conversation) (sorted_participants : List String) :
    List String → Option Conversation
  | [] => none
  | a :: rest =>
    match findByAddr convs a sorted_participants with
    | some c => some c
    | none => getByParticipantsGo convs sorted_participants rest

/-- `ConversationRepository.get_by_participants`. -/
def get_by_participants (convs : List Conversation) (participants : List String) :
    Option Conversation :=
  getByParticipantsGo convs (sortAddrs participants) (sortAddrs participants)

/-- The state effect of `ParticipantRepository.add_participant` on one
conversation's participant list: a no-op when the address is already present,
else an append. -/
def addParticipantAddr (ps : List String) (a : String) : List String :=
  if ps.contains a then ps else ps ++ [a]

/-- `_find_or_create_conversation` of the services: look the participant set
up via `get_by_participants`; on a miss, `create_empty` a conversation with a
fresh id and add each participant idempotently.  (The source returns the
`create_empty` response object, whose id equals the id of the stored
conversation returned here.) -/
def find_or_create_conversation (s : ConvState) (participants : List String) :
    Conversation × ConvState :=
  match get_by_participants s.convs participants with
  | some c => (c, s)
  | none =>
    let newConv : Conversation :=
      { id := s.nextId, participants := participants.foldl addParticipantAddr [] }
    (newConv, { convs := s.convs ++ [newConv], nextId := s.nextId + 1 })

/-- Well-formedness of the store: ids are distinct and below the counter.
Preserved by `find_or_create_conversation` (see `find_or_create_preserves_WF`)
and true of the empty store. -/
def ConvState.WF (s : ConvState) : Prop :=
  (s.convs.map Conversation.id).Nodup ∧ ∀ c ∈ s.convs, c.id < s.nextId

theorem sortAddrs_perm (l : List String) : (sortAddrs l).Perm l :=
  List.perm_insertionSort _ l

theorem sortAddrs_eq_of_set_eq {l₁ l₂ : List String} (h₁ : l₁.Nodup) (h₂ : l₂.Nodup)
    (h : ∀ a, a ∈ l₁ ↔ a ∈ l₂) : sortAddrs l₁ = sortAddrs l₂ := by
  have hperm : l₁.Perm l₂ := (List.perm_ext_iff_of_nodup h₁ h₂).mpr h
  exact List.eq_of_perm_of_sorted
    ((sortAddrs_perm l₁).trans (hperm.trans (sortAddrs_perm l₂).symm))
    (List.sorted_insertionSort _ l₁) (List.sorted_insertionSort _ l₂)

theorem set_eq_of_sortAddrs_eq {l₁ l₂ : List String} (h : sortAddrs l₁ = sortAddrs l₂) :
    ∀ a, a ∈ l₁ ↔ a ∈ l₂ := by
  intro a
  constructor
  · intro ha
    exact (sortAddrs_perm l₂).mem_iff.mp (h ▸ (sortAddrs_perm l₁).mem_iff.mpr ha)
  · intro ha
    exact (sortAddrs_perm l₁).mem_iff.mp (h ▸ (sortAddrs_perm l₂).mem_iff.mpr ha)

theorem foldl_addParticipantAddr_nodup (l : List String) :
    ∀ (acc : List String), l.Nodup → (∀ a ∈ l, acc.contains a = false) →
      l.foldl addParticipantAddr acc = acc ++ l := by
  induction l with
  | nil => intro acc _ _; simp
  | cons a l ih =>
    intro acc hnd hfresh
    have hstep : (a :: l).foldl addParticipantAddr acc
        = l.foldl addParticipantAddr (addParticipantAddr acc a) := rfl
    have hacca : addParticipantAddr acc a = acc ++ [a] := by
      unfold addParticipantAddr
      rw [hfresh a (List.mem_cons_self a l)]
      simp
    have hfresh1 : ∀ b ∈ l, (acc ++ [a]).contains b = false := by
      intro b hb
      have hba : b ≠ a := by
        intro hcontra
        exact (List.nodup_cons.mp hnd).1 (hcontra ▸ hb)
      have hbacc := hfresh b (List.mem_cons_of_mem a hb)
      rw [Bool.eq_false_iff]
      intro hcon
      rcases List.mem_append.mp (List.elem_iff.mp hcon) with h | h
      · exact Bool.eq_false_iff.mp hbacc (List.elem_iff.mpr h)
      · simp only [List.mem_singleton] at h
        exact hba h
    rw [hstep, hacca, ih (acc ++ [a]) (List.nodup_cons.mp hnd).2 hfresh1]
    simp

theorem getByParticipantsGo_eq_none {convs : List Conversation}
    {sp : List String} {l : List String}
    (h : getByParticipantsGo convs sp l = none) :
    ∀ a ∈ l, findByAddr convs a sp = none := by
  induction l with
  | nil => intro a ha; exact absurd ha (List.not_mem_nil a)
  | cons b l ih =>
    intro a ha
    unfold getByParticipantsGo at h
    rcases hfind : findByAddr convs b sp with _ | c
    · rw [hfind] at h
      rcases List.mem_cons.mp ha with h' | h'
      · rw [h']; exact hfind
      · exact ih h a h'
    · rw [hfind] at h
      exact absurd h (by simp)

theorem getByParticipantsGo_some {convs : List Conversation} {sp : List String} :
    ∀ {l : List String} {c : Conversation},
      getByParticipantsGo convs sp l = some c →
      c ∈ convs ∧ participantsMatch sp c = true := by
  intro l
  induction l with
  | nil => intro c h; exact absurd h (by simp [getByParticipantsGo])
  | cons b l ih =>
    intro c h
    unfold getByParticipantsGo at h
    rcases hfind : findByAddr convs b sp with _ | c'
    · rw [hfind] at h
      exact ih h
    · rw [hfind] at h
      simp only [Option.some.injEq] at h
      subst h
      unfold findByAddr at hfind
      have hmem := List.mem_of_find?_eq_some hfind
      have hmatch := List.find?_some hfind
      exact ⟨List.mem_of_mem_filter hmem, hmatch⟩

theorem get_by_participants_some {convs : List Conversation} {p : List String}
    {c : Conversation} (h : get_by_participants convs p = some c) :
    c ∈ convs ∧ sortAddrs c.participants = sortAddrs p := by
  unfold get_by_participants at h
  have := getByParticipantsGo_some h
  exact ⟨this.1, by have := this.2; simpa [participantsMatch] using this⟩

theorem get_by_participants_congr (convs : List Conversation) {p1 p2 : List String}
    (h : sortAddrs p1 = sortAddrs p2) :
    get_by_participants convs p1 = get_by_participants convs p2 := by
  unfold get_by_participants
  rw [h]

theorem sortAddrs_ne_nil {p : List String} (h : p ≠ []) : sortAddrs p ≠ [] := by
  intro hcon
  have := (sortAddrs_perm p).length_eq
  rw [hcon] at this
  exact h (List.length_eq_zero.mp this.symm)

theorem get_by_participants_append_new (convs : List Conversation)
    (p1 p2 : List String) (c : Conversation)
    (hnone : get_by_participants convs p1 = none)
    (hsort : sortAddrs p2 = sortAddrs p1) (hne : p2 ≠ [])
    (hcpart : sortAddrs c.participants = sortAddrs p1) :
    get_by_participants (convs ++ [c]) p2 = some c := by
  have hmemc : ∀ a ∈ sortAddrs p2, a ∈ c.participants := by
    intro a ha
    rw [hsort, ← hcpart] at ha
    exact (sortAddrs_perm c.participants).mem_iff.mp ha
  have hnoneAll := @getByParticipantsGo_eq_none convs (sortAddrs p1) (sortAddrs p1) hnone
  unfold get_by_participants
  rcases hsp : sortAddrs p2 with _ | ⟨a, rest⟩
  · exact absurd hsp (sortAddrs_ne_nil hne)
  · unfold getByParticipantsGo
    have hfind : findByAddr (convs ++ [c]) a (a :: rest) = some c := by
      unfold findByAddr
      have hfilter : (convs ++ [c]).filter (fun x => x.participants.contains a)
          = convs.filter (fun x => x.participants.contains a) ++ [c] := by
        rw [List.filter_append]
        have hmem : a ∈ c.participants := by
          apply hmemc
          rw [hsp]
          exact List.mem_cons_self a rest
        simp [hmem]
      rw [hfilter, List.find?_append]
      have hold : (convs.filter (fun x => x.participants.contains a)).find?
          (participantsMatch (a :: rest)) = none := by
        have ha1 : a ∈ sortAddrs p1 := by
          rw [← hsort, hsp]
          exact List.mem_cons_self a rest
        have := hnoneAll a ha1
        unfold findByAddr at this
        rw [← hsort, hsp] at this
        exact this
      rw [hold]
      have hmatch : participantsMatch (a :: rest) c = true := by
        unfold participantsMatch
        rw [hcpart, ← hsort, hsp]
        exact beq_self_eq_true _
      simp [List.find?_cons, hmatch]
    rw [hfind]

theorem foldl_addParticipantAddr_of_nodup {p : List String} (h : p.Nodup) :
    p.foldl addParticipantAddr [] = p := by
  have := foldl_addParticipantAddr_nodup p [] h (by intro a _; rfl)
  simpa using this

theorem find_or_create_preserves_WF (s : ConvState) (hWF : s.WF) (p : List String) :
    (find_or_create_conversation s p).2.WF := by
  rcases hg : get_by_participants s.convs p with _ | c
  · simp only [find_or_create_conversation, hg]
    constructor
    · rw [List.map_append]
      refine List.Nodup.append hWF.1 (List.nodup_singleton _) ?_
      intro x hx hx'
      simp only [List.map_cons, List.map_nil, List.mem_singleton] at hx'
      rcases List.mem_map.mp hx with ⟨c', hc', hid⟩
      have := hWF.2 c' hc'
      omega
    · intro c' hc'
      show c'.id < s.nextId + 1
      rcases List.mem_append.mp hc' with h | h
      · have := hWF.2 c' h
        omega
      · simp only [List.mem_singleton] at h
        subst h
        simp
  · simp only [find_or_create_conversation, hg]
    exact hWF

/-- The empty store (fresh database) is well formed. -/
theorem initial_ConvState_WF : (ConvState.mk [] 0).WF := by
  constructor
  · simp
  · intro c hc
    exact absurd hc (List.not_mem_nil c)

theorem find_or_create_eq_create {s : ConvState} {p : List String}
    (h : get_by_participants s.convs p = none) :
    find_or_create_conversation s p
      = ({ id := s.nextId, participants := p.foldl addParticipantAddr [] },
         { convs := s.convs
             ++ [{ id := s.nextId, participants := p.foldl addParticipantAddr [] }],
           nextId := s.nextId + 1 }) := by
  simp [find_or_create_conversation, h]

theorem find_or_create_eq_found {s : ConvState} {p : List String} {c : Conversation}
    (h : get_by_participants s.convs p = some c) :
    find_or_create_conversation s p = (c, s) := by
  simp [find_or_create_conversation, h]

/-- C1 (amended): for two successive resolve calls on a well-formed store with
nonempty, duplicate-free participant collections, the same conversation id is
returned iff the two collections are equal as sets.  (The unrestricted claim is
refuted by `resolve_duplicate_collections_not_matched`: with an empty or
duplicate-containing collection each call creates a fresh conversation.) -/
theorem resolve_participant_set_identity (s : ConvState) (hWF : s.WF)
    (p1 p2 : List String) (h1ne : p1 ≠ []) (h1nd : p1.Nodup)
    (h2ne : p2 ≠ []) (h2nd : p2.Nodup) :
    (find_or_create_conversation (find_or_create_conversation s p1).2 p2).1.id
        = (find_or_create_conversation s p1).1.id
      ↔ (∀ a, a ∈ p1 ↔ a ∈ p2) := by
  rcases hg1 : get_by_participants s.convs p1 with _ | c1
  · have hr1 := find_or_create_eq_create hg1
    have hncp : ({ id := s.nextId, participants := p1.foldl addParticipantAddr [] }
        : Conversation).participants = p1 := foldl_addParticipantAddr_of_nodup h1nd
    have hA : (find_or_create_conversation s p1).2
        = ConvState.mk
            (s.convs ++ [{ id := s.nextId, participants := p1.foldl addParticipantAddr [] }])
            (s.nextId + 1) := by
      rw [hr1]
    have hB : (find_or_create_conversation s p1).1.id = s.nextId := by
      rw [hr1]
    rw [hA, hB]
    constructor
    · intro hid
      rcases hg2 : get_by_participants
          (s.convs ++ [{ id := s.nextId, participants := p1.foldl addParticipantAddr [] }])
          p2 with _ | c2
      · have hr2 := @find_or_create_eq_create
          (ConvState.mk
            (s.convs ++ [{ id := s.nextId, participants := p1.foldl addParticipantAddr [] }])
            (s.nextId + 1)) p2 hg2
        rw [hr2] at hid
        have hid' : s.nextId + 1 = s.nextId := hid
        omega
      · have hr2 := @find_or_create_eq_found
          (ConvState.mk
            (s.convs ++ [{ id := s.nextId, participants := p1.foldl addParticipantAddr [] }])
            (s.nextId + 1)) p2 c2 hg2
        rw [hr2] at hid
        have hc2 := get_by_participants_some hg2
        rcases List.mem_append.mp hc2.1 with hold | hnew
        · have hbound := hWF.2 c2 hold
          have hid' : c2.id = s.nextId := hid
          omega
        · simp only [List.mem_singleton] at hnew
          have hsort : sortAddrs p1 = sortAddrs p2 := by
            have h1 : sortAddrs c2.participants = sortAddrs p2 := hc2.2
            rw [hnew] at h1
            rw [hncp] at h1
            exact h1
          exact set_eq_of_sortAddrs_eq hsort
    · intro hset
      have hsort : sortAddrs p2 = sortAddrs p1 :=
        sortAddrs_eq_of_set_eq h2nd h1nd (fun a => (hset a).symm)
      have hfound : get_by_participants
          (s.convs ++ [{ id := s.nextId, participants := p1.foldl addParticipantAddr [] }])
          p2 = some { id := s.nextId, participants := p1.foldl addParticipantAddr [] } :=
        get_by_participants_append_new s.convs p1 p2 _ hg1 hsort h2ne (by rw [hncp])
      have hr2 := @find_or_create_eq_found
        (ConvState.mk
          (s.convs ++ [{ id := s.nextId, participants := p1.foldl addParticipantAddr [] }])
          (s.nextId + 1)) p2
        { id := s.nextId, participants := p1.foldl addParticipantAddr [] } hfound
      rw [hr2]
  · have hr1 := find_or_create_eq_found hg1
    have hc1 := get_by_participants_some hg1
    have hA : (find_or_create_conversation s p1).2 = s := by
      rw [hr1]
    have hB : (find_or_create_conversation s p1).1.id = c1.id := by
      rw [hr1]
    rw [hA, hB]
    constructor
    · intro hid
      rcases hg2 : get_by_participants s.convs p2 with _ | c2
      · have hr2 := find_or_create_eq_create hg2
        rw [hr2] at hid
        have hbound := hWF.2 c1 hc1.1
        have hid' : s.nextId = c1.id := hid
        omega
      · have hr2 := find_or_create_eq_found hg2
        rw [hr2] at hid
        have hc2 := get_by_participants_some hg2
        have hceq : c2 = c1 := by
          have hinj := List.inj_on_of_nodup_map hWF.1
          exact hinj hc2.1 hc1.1 hid
        have hsort : sortAddrs p1 = sortAddrs p2 := by
          have h1 : sortAddrs c1.participants = sortAddrs p1 := hc1.2
          have h2 : sortAddrs c2.participants = sortAddrs p2 := hc2.2
          rw [hceq] at h2
          rw [h1] at h2
          exact h2
        exact set_eq_of_sortAddrs_eq hsort
    · intro hset
      have hsort : sortAddrs p1 = sortAddrs p2 := sortAddrs_eq_of_set_eq h1nd h2nd hset
      have hfound : get_by_participants s.convs p2 = some c1 := by
        rw [← get_by_participants_congr s.convs hsort]
        exact hg1
      rw [find_or_create_eq_found hfound]

/-- Counterexample to C1 as stated: two resolve calls whose participant
collections are equal — the empty collection, and the duplicate collection
`["a", "a"]` of a self-message — return different conversation ids, because
`get_by_participants` iterates over (and compares against) the sorted input
with duplicates while stored participant lists are deduplicated. -/
theorem resolve_duplicate_collections_not_matched :
    (find_or_create_conversation
        (find_or_create_conversation (ConvState.mk [] 0) []).2 []).1.id
      ≠ (find_or_create_conversation (ConvState.mk [] 0) []).1.id
    ∧ (find_or_create_conversation
        (find_or_create_conversation (ConvState.mk [] 0) ["a", "a"]).2 ["a", "a"]).1.id
      ≠ (find_or_create_conversation (ConvState.mk [] 0) ["a", "a"]).1.id := by
  constructor
  · decide
  · decide

/-- Witness for C1 (amended): resolving `["a", "b"]` and then `["b", "a"]`
from the empty store returns the same conversation id. -/
theorem resolve_participant_set_identity_witness :
    (find_or_create_conversation
        (find_or_create_conversation (ConvState.mk [] 0) ["a", "b"]).2 ["b", "a"]).1.id
      = (find_or_create_conversation (ConvState.mk [] 0) ["a", "b"]).1.id :=
  (resolve_participant_set_identity (ConvState.mk [] 0) initial_ConvState_WF
      ["a", "b"] ["b", "a"] (by decide) (by decide) (by decide) (by decide)).mpr
    (by
      intro a
      constructor
      · intro h
        rcases List.mem_cons.mp h with h' | h'
        · exact h' ▸ List.mem_cons_of_mem "b" (List.mem_singleton.mpr rfl)
        · simp only [List.mem_singleton] at h'
          exact h' ▸ List.mem_cons_self "b" ["a"]
      · intro h
        rcases List.mem_cons.mp h with h' | h'
        · exact h' ▸ List.mem_cons_of_mem "a" (List.mem_singleton.mpr rfl)
        · simp only [List.mem_singleton] at h'
          exact h' ▸ List.mem_cons_self "a" ["b"])

/-!
`ParticipantRepository.add_participant`
(`src/app/repositories/participant_repository.py`): look the
`(conversation_id, address)` pair up; return the existing row unchanged when
found, else insert a fresh row.  Row ids (`uuid.uuid4()`) are modelled by a
counter and `datetime.utcnow()` by the `now : Int` argument. -/

/-- A participant row. -/
structure Participant where
  id : Nat
  conversation_id : Nat
  address : String
  address_type : String
  created_at : Int
deriving DecidableEq

/-- The participant table plus the fresh-id counter. -/
structure PartState where
  parts : List Participant
  nextId : Nat
deriving DecidableEq

/-- `ParticipantRepository.add_participant`.  The source's
`scalar_one_or_none()` raises when several rows match; this model returns the
first match, so theorems about it assume the table holds at most one row per
`(conversation_id, address)` pair — the uniqueness invariant the idempotent
add maintains. -/
def add_participant (st : PartState) (conversation_id : Nat) (address : String)
    (address_type : String) (now : Int) : Participant × PartState :=
  match st.parts.find?
      (fun p => p.conversation_id == conversation_id && p.address == address) with
  | some p => (p, st)
  | none =>
    let p : Participant :=
      { id := st.nextId, conversation_id := conversation_id, address := address,
        address_type := address_type, created_at := now }
    (p, { parts := st.parts ++ [p], nextId := st.nextId + 1 })

/-- Number of participant rows of a conversation with a given address. -/
def countParticipant (parts : List Participant) (conversation_id : Nat)
    (address : String) : Nat :=
  parts.countP (fun p => p.conversation_id == conversation_id && p.address == address)

/-- C9: `add_participant` is idempotent: a second call with the same
`(conversation_id, address)` pair returns the participant the first call
returned and leaves the table unchanged, and the conversation ends up with
exactly one row for that address when it had none before (`max n 1` rows when
it had `n`). -/
theorem add_participant_idempotent (st : PartState) (cid : Nat) (addr : String)
    (atype₁ atype₂ : String) (now₁ now₂ : Int)
    (huniq : countParticipant st.parts cid addr ≤ 1) :
    (add_participant (add_participant st cid addr atype₁ now₁).2 cid addr atype₂ now₂).1
        = (add_participant st cid addr atype₁ now₁).1
      ∧ (add_participant (add_participant st cid addr atype₁ now₁).2 cid addr atype₂ now₂).2
        = (add_participant st cid addr atype₁ now₁).2
      ∧ countParticipant (add_participant st cid addr atype₁ now₁).2.parts cid addr
        = max (countParticipant st.parts cid addr) 1 := by
  rcases hfind : st.parts.find?
      (fun p => p.conversation_id == cid && p.address == addr) with _ | p
  · have hr1 : add_participant st cid addr atype₁ now₁
        = ({ id := st.nextId, conversation_id := cid, address := addr,
             address_type := atype₁, created_at := now₁ },
           { parts := st.parts
               ++ [{ id := st.nextId, conversation_id := cid, address := addr,
                     address_type := atype₁, created_at := now₁ }],
             nextId := st.nextId + 1 }) := by
      simp only [add_participant, hfind]
    have hcount0 : countParticipant st.parts cid addr = 0 := by
      unfold countParticipant
      rw [List.countP_eq_zero]
      intro p hp
      have := List.find?_eq_none.mp hfind p hp
      simpa using this
    have hfind2 : (st.parts
        ++ [({ id := st.nextId, conversation_id := cid, address := addr,
               address_type := atype₁, created_at := now₁ } : Participant)]).find?
          (fun p => p.conversation_id == cid && p.address == addr)
        = some ({ id := st.nextId, conversation_id := cid, address := addr,
                  address_type := atype₁, created_at := now₁ } : Participant) := by
      rw [List.find?_append, hfind]
      simp
    have hr2 : add_participant
        ({ parts := st.parts
             ++ [{ id := st.nextId, conversation_id := cid, address := addr,
                   address_type := atype₁, created_at := now₁ }],
           nextId := st.nextId + 1 } : PartState) cid addr atype₂ now₂
        = ({ id := st.nextId, conversation_id := cid, address := addr,
             address_type := atype₁, created_at := now₁ },
           { parts := st.parts
               ++ [{ id := st.nextId, conversation_id := cid, address := addr,
                     address_type := atype₁, created_at := now₁ }],
             nextId := st.nextId + 1 }) := by
      simp only [add_participant, hfind2]
    rw [hr1]
    refine ⟨?_, ?_, ?_⟩
    · rw [hr2]
    · rw [hr2]
    · unfold countParticipant
      rw [List.countP_append]
      unfold countParticipant at hcount0
      rw [hcount0]
      simp
  · have hr1 : add_participant st cid addr atype₁ now₁ = (p, st) := by
      simp only [add_participant, hfind]
    have hp := List.find?_some hfind
    have hmem := List.mem_of_find?_eq_some hfind
    have hcount1 : 1 ≤ countParticipant st.parts cid addr := by
      unfold countParticipant
      rw [Nat.one_le_iff_ne_zero]
      intro hzero
      rw [List.countP_eq_zero] at hzero
      exact hzero p hmem hp
    rw [hr1]
    refine ⟨?_, ?_, ?_⟩
    · simp only [add_participant, hfind]
    · simp only [add_participant, hfind]
    · show countParticipant st.parts cid addr = max (countParticipant st.parts cid addr) 1
      omega

/-- Witness for C9: adding `(7, "a")` twice to the empty table. -/
theorem add_participant_idempotent_witness :
    countParticipant (PartState.mk [] 0).parts 7 "a" ≤ 1
    ∧ ((add_participant (add_participant (PartState.mk [] 0) 7 "a" "phone" 5).2
          7 "a" "phone" 9).1
        = (add_participant (PartState.mk [] 0) 7 "a" "phone" 5).1
      ∧ (add_participant (add_participant (PartState.mk [] 0) 7 "a" "phone" 5).2
          7 "a" "phone" 9).2
        = (add_participant (PartState.mk [] 0) 7 "a" "phone" 5).2
      ∧ countParticipant (add_participant (PartState.mk [] 0) 7 "a" "phone" 5).2.parts 7 "a"
        = max (countParticipant (PartState.mk [] 0).parts 7 "a") 1) :=
  ⟨by decide,
   add_participant_idempotent (PartState.mk [] 0) 7 "a" "phone" "phone" 5 9 (by decide)⟩

/-!
Webhook payloads and validation.  A payload is the JSON object delivered to
the webhook endpoint: a mapping from string keys to values.  The two value
shapes the services consume are strings (scalar fields) and lists of strings
(attachment fields); `str()` of a list value renders the Python `repr`.
List-valued timestamp or `html_content` entries raise type errors in the
source (`AttributeError` on `.replace`, pydantic validation) and are outside
this embedding; no theorem below quantifies over them. -/

/-- A JSON value as consumed by the webhook services. -/
inductive PVal where
  | s (v : String)
  | ls (v : List String)
deriving DecidableEq

/-- A webhook payload: the key/value entries of the JSON object (keys are
unique, later keys are never consulted once one matches). -/
structure Payload where
  entries : List (String × PVal)
deriving DecidableEq

/-- Python `repr` of a string list, produced by `str()` on a list value. -/
def pyReprList (v : List String) : String :=
  "[" ++ String.intercalate ", " (v.map (fun x => "'" ++ x ++ "'")) ++ "]"

/-- `str()` of a payload value. -/
def pyStr : PVal → String
  | .s v => v
  | .ls v => pyReprList v

/-- Dictionary lookup `payload.get(k)`. -/
def Payload.lookup (p : Payload) (k : String) : Option PVal :=
  List.lookup k p.entries

/-- `k in payload`. -/
def Payload.hasKey (p : Payload) (k : String) : Bool :=
  (p.lookup k).isSome

/-- `str(payload.get(k, ""))`. -/
def Payload.getStr (p : Payload) (k : String) : String :=
  match p.lookup k with
  | some v => pyStr v
  | none => ""

/-- `payload.get(k)` for a string-valued field (timestamp, `html_content`). -/
def Payload.getStrOpt (p : Payload) (k : String) : Option String :=
  match p.lookup k with
  | some v => some (pyStr v)
  | none => none

/-- `payload.get(k, []) or []` for a list-valued field (`attachments`,
`MediaUrl`); a string value keeps Python truthiness (`"" or []` is `[]`). -/
def Payload.getList (p : Payload) (k : String) : List String :=
  match p.lookup k with
  | some (.ls v) => v
  | some (.s v) => if v = "" then [] else [v]
  | none => []

/-- The validation failures the services raise (`ValueError` with a
distinguishing message; the constructor argument is the offending field or
value named in the message).  The `MalformedPayload` case (payload not a
dict) is outside this embedding because `Payload` is a dict by construction. -/
inductive VErr where
  | UnrecognizedFormat
  | MissingField (name : String)
  | InvalidProviderType (value : String)
  | InvalidAddressFormat (field : String)
  | InvalidTimestamp (value : String)
deriving DecidableEq

/-- The canonical `WebhookMessageRequest` produced by a successful
validation; datetimes are modelled as `Int`. -/
structure WebhookMessageRequest where
  from_address : String
  to_address : String
  body : String
  attachments : List String
  provider_message_id : String
  timestamp : Int
  provider_type : String
deriving DecidableEq

/-- The fields extracted from an SMS/MMS payload before the common checks. -/
structure RawSms where
  from_address : String
  to_address : String
  body : String
  provider_message_id : String
  provider_type : String
  attachments : List String
  timestamp_str : Option String
deriving DecidableEq

/-- Extraction for the unified SMS/MMS shape (`"from" in webhook_data`). -/
def sms_extract_unified (p : Payload) : RawSms :=
  { from_address := p.getStr "from"
    to_address := p.getStr "to"
    body := p.getStr "body"
    provider_message_id := p.getStr "messaging_provider_id"
    attachments := p.getList "attachments"
    timestamp_str := p.getStrOpt "timestamp"
    provider_type := p.getStr "type" }

/-- Extraction for the provider-native (Twilio-like) SMS/MMS shape
(`"From" in webhook_data`); `provider_type` is derived from the media list. -/
def sms_extract_provider (p : Payload) : RawSms :=
  { from_address := p.getStr "From"
    to_address := p.getStr "To"
    body := p.getStr "Body"
    provider_message_id := p.getStr "MessageSid"
    attachments := p.getList "MediaUrl"
    timestamp_str := p.getStrOpt "Timestamp"
    provider_type := if (p.getList "MediaUrl").isEmpty then "sms" else "mms" }

/-- The timestamp step shared verbatim by both services:
`if timestamp_str: datetime.fromisoformat(timestamp_str.replace("Z", "+00:00"))
else datetime.now(timezone.utc)`.  A `None` or empty (falsy) timestamp string
selects the current-time branch. -/
def parse_timestamp (fromiso : String → Option Int) (now : Int) :
    Option String → Except VErr Int
  | some s =>
    if s = "" then .ok now
    else
      match fromiso (s.replace "Z" "+00:00") with
      | some t => .ok t
      | none => .error (.InvalidTimestamp s)
  | none => .ok now

/-- The required-field, provider-type and timestamp checks of
`ReceiveSmsMmsWebhookService._validate_webhook_payload`, in source order. -/
def sms_finish (fromiso : String → Option Int) (now : Int) (r : RawSms) :
    Except VErr WebhookMessageRequest :=
  if r.from_address = "" then .error (.MissingField "from_address")
  else if r.to_address = "" then .error (.MissingField "to_address")
  else if r.body = "" then .error (.MissingField "body")
  else if r.provider_message_id = "" then .error (.MissingField "provider_message_id")
  else if r.provider_type = "" then .error (.MissingField "provider_type")
  else if ¬(r.provider_type = "sms" ∨ r.provider_type = "mms") then
    .error (.InvalidProviderType r.provider_type)
  else
    (parse_timestamp fromiso now r.timestamp_str).map (fun ts =>
      { from_address := r.from_address
        to_address := r.to_address
        body := r.body
        attachments := r.attachments
        provider_message_id := r.provider_message_id
        timestamp := ts
        provider_type := r.provider_type })

/-- `ReceiveSmsMmsWebhookService._validate_webhook_payload`: shape dispatch by
key presence (`from` before `From`), then extraction, then the checks. -/
def sms_validate (fromiso : String → Option Int) (now : Int) (p : Payload) :
    Except VErr WebhookMessageRequest :=
  if p.hasKey "from" then sms_finish fromiso now (sms_extract_unified p)
  else if p.hasKey "From" then sms_finish fromiso now (sms_extract_provider p)
  else .error .UnrecognizedFormat

/-- The fields extracted from an email payload before the common checks. -/
structure RawEmail where
  from_address : String
  to_address : String
  body : String
  provider_message_id : String
  attachments : List String
  timestamp_str : Option String
deriving DecidableEq

/-- Extraction for the provider-native (SendGrid-like) email shape
(`"from_email" in webhook_data`): body prefers `html_content` over `content`
and is prefixed with the subject when one is present. -/
def email_extract_provider (p : Payload) : RawEmail :=
  let subject := p.getStr "subject"
  let content := p.getStr "content"
  let body0 :=
    match p.getStrOpt "html_content" with
    | some h => if h = "" then content else h
    | none => content
  { from_address := p.getStr "from_email"
    to_address := p.getStr "to_email"
    body := if subject = "" then body0 else "Subject: " ++ subject ++ "\n\n" ++ body0
    provider_message_id := p.getStr "x_message_id"
    attachments := []
    timestamp_str := p.getStrOpt "timestamp" }

/-- Extraction for the unified email shape (`"from" in webhook_data`). -/
def email_extract_unified (p : Payload) : RawEmail :=
  { from_address := p.getStr "from"
    to_address := p.getStr "to"
    body := p.getStr "body"
    provider_message_id := p.getStr "xillio_id"
    attachments := p.getList "attachments"
    timestamp_str := p.getStrOpt "timestamp" }

/-- Python `'@' in address`: character membership in the string. -/
def pyContains (s : String) (c : Char) : Bool :=
  s.data.contains c

/-- The required-field, address-format and timestamp checks of
`ReceiveEmailWebhookService._validate_webhook_payload`, in source order. -/
def email_finish (fromiso : String → Option Int) (now : Int) (r : RawEmail) :
    Except VErr WebhookMessageRequest :=
  if r.from_address = "" then .error (.MissingField "from_address")
  else if r.to_address = "" then .error (.MissingField "to_address")
  else if r.body = "" then .error (.MissingField "body")
  else if r.provider_message_id = "" then .error (.MissingField "provider_message_id")
  else if ¬(pyContains r.from_address '@') then .error (.InvalidAddressFormat "from_address")
  else if ¬(pyContains r.to_address '@') then .error (.InvalidAddressFormat "to_address")
  else
    (parse_timestamp fromiso now r.timestamp_str).map (fun ts =>
      { from_address := r.from_address
        to_address := r.to_address
        body := r.body
        attachments := r.attachments
        provider_message_id := r.provider_message_id
        timestamp := ts
        provider_type := "email" })

/-- `ReceiveEmailWebhookService._validate_webhook_payload`: shape dispatch by
key presence (`from_email` before `from`), then extraction, then the checks. -/
def email_validate (fromiso : String → Option Int) (now : Int) (p : Payload) :
    Except VErr WebhookMessageRequest :=
  if p.hasKey "from_email" then email_finish fromiso now (email_extract_provider p)
  else if p.hasKey "from" then email_finish fromiso now (email_extract_unified p)
  else .error .UnrecognizedFormat

/-!
Provider clients: `SmsProviderClient` and `EmailProviderClient`
(`src/app/clients/`).  `extract_status` reads the `status` field of the
provider response (default `"unknown"`) and maps it through a fixed table
with default `"unknown"`. -/

/-- The Twilio-style `status_mapping` dict of `SmsProviderClient`. -/
def sms_status_mapping : List (String × String) :=
  [("queued", "pending"), ("sending", "pending"), ("sent", "sent"),
   ("delivered", "delivered"), ("undelivered", "failed"), ("failed", "failed")]

/-- `SmsProviderClient.extract_status`. -/
def sms_extract_status (response_data : Payload) : String :=
  let status :=
    match response_data.lookup "status" with
    | some v => pyStr v
    | none => "unknown"
  (List.lookup status sms_status_mapping).getD "unknown"

/-- The SendGrid-style `status_mapping` dict of `EmailProviderClient`, in
source insertion order. -/
def email_status_mapping : List (String × String) :=
  [("pending", "pending"), ("processed", "sent"), ("dropped", "failed"),
   ("deferred", "pending"), ("bounce", "failed"), ("delivered", "delivered"),
   ("blocked", "failed")]

/-- `EmailProviderClient.extract_status`. -/
def email_extract_status (response_data : Payload) : String :=
  let status :=
    match response_data.lookup "status" with
    | some v => pyStr v
    | none => "unknown"
  (List.lookup status email_status_mapping).getD "unknown"

/-- A provider response carrying only a status field, `{status: s}`. -/
def statusPayload (s : String) : Payload :=
  ⟨[("status", .s s)]⟩

/-- The pydantic `SendMessageRequest` (outbound): attachments optional. -/
structure SendMessageRequest where
  from_address : String
  to_address : String
  body : String
  attachments : Option (List String)
  timestamp : Int
deriving DecidableEq

/-- Python truthiness of `request.attachments` (`None` and `[]` are falsy). -/
def pyTruthyAttachments : Option (List String) → Bool
  | none => false
  | some l => !l.isEmpty

/-- `SmsProviderClient.get_provider_type`:
`"mms" if request.attachments else "sms"`. -/
def sms_get_provider_type (request : SendMessageRequest) : String :=
  if pyTruthyAttachments request.attachments then "mms" else "sms"

/-- `EmailProviderClient.get_provider_type`: always `"email"`. -/
def email_get_provider_type (_ : SendMessageRequest) : String :=
  "email"

/-!
The webhook ingestion pipeline `process_webhook` of both services:
validate, find-or-create the conversation for `[from_address, to_address]`,
persist the inbound message, and answer with the canonical response whose
`direction` is `"inbound"` and whose `status` is `"delivered"`. -/

/-- A persisted message row. -/
structure StoredMessage where
  id : Nat
  conversation_id : Nat
  request : WebhookMessageRequest
  created_at : Int
  updated_at : Int
deriving DecidableEq

/-- The store the pipeline touches: conversations (with participants) and
messages, each with its fresh-id counter. -/
structure AppState where
  conv : ConvState
  messages : List StoredMessage
  msgNextId : Nat
deriving DecidableEq

/-- Modelled from the spec: `MessageRepository.create_inbound_message` is
called by both webhook services but is not defined in the provided source
tree.  Per the spec's MessageIngestionPipeline and Message lifecycle, the
persistence write creates exactly one message row for the ingestion event and
returns it with a storage-assigned id and created/updated timestamps. -/
def create_inbound_message (st : AppState) (now : Int) (conversation_id : Nat)
    (request : WebhookMessageRequest) : StoredMessage × AppState :=
  let m : StoredMessage :=
    { id := st.msgNextId, conversation_id := conversation_id, request := request,
      created_at := now, updated_at := now }
  (m, { st with messages := st.messages ++ [m], msgNextId := st.msgNextId + 1 })

/-- The canonical `MessageResponse`. -/
structure MessageResponse where
  id : Nat
  conversation_id : Nat
  provider_type : String
  provider_message_id : String
  from_address : String
  to_address : String
  body : String
  attachments : List String
  direction : String
  status : String
  message_timestamp : Int
  created_at : Int
  updated_at : Int
deriving DecidableEq

/-- `ReceiveSmsMmsWebhookService.process_webhook`: a validation failure
propagates (nothing persisted); success resolves the conversation, persists
the message and builds the response with `direction="inbound"` and
`status="delivered"`. -/
def sms_process_webhook (fromiso : String → Option Int) (now : Int)
    (st : AppState) (p : Payload) : Except VErr MessageResponse × AppState :=
  match sms_validate fromiso now p with
  | .error e => (.error e, st)
  | .ok request =>
    let cr := find_or_create_conversation st.conv [request.from_address, request.to_address]
    let st1 : AppState := { st with conv := cr.2 }
    let mr := create_inbound_message st1 now cr.1.id request
    (.ok { id := mr.1.id
           conversation_id := cr.1.id
           provider_type := request.provider_type
           provider_message_id := request.provider_message_id
           from_address := request.from_address
           to_address := request.to_address
           body := request.body
           attachments := request.attachments
           direction := "inbound"
           status := "delivered"
           message_timestamp := request.timestamp
           created_at := mr.1.created_at
           updated_at := mr.1.updated_at }, mr.2)

/-- `ReceiveEmailWebhookService.process_webhook`, same pipeline over the email
validator. -/
def email_process_webhook (fromiso : String → Option Int) (now : Int)
    (st : AppState) (p : Payload) : Except VErr MessageResponse × AppState :=
  match email_validate fromiso now p with
  | .error e => (.error e, st)
  | .ok request =>
    let cr := find_or_create_conversation st.conv [request.from_address, request.to_address]
    let st1 : AppState := { st with conv := cr.2 }
    let mr := create_inbound_message st1 now cr.1.id request
    (.ok { id := mr.1.id
           conversation_id := cr.1.id
           provider_type := request.provider_type
           provider_message_id := request.provider_message_id
           from_address := request.from_address
           to_address := request.to_address
           body := request.body
           attachments := request.attachments
           direction := "inbound"
           status := "delivered"
           message_timestamp := request.timestamp
           created_at := mr.1.created_at
           updated_at := mr.1.updated_at }, mr.2)

/-- C4: both `extract_status` maps reproduce the status tables exactly: every
listed provider status maps to its canonical value and every other status
string maps to `"unknown"`. -/
theorem extract_status_tables (s : String) :
    sms_extract_status (statusPayload "queued") = "pending"
    ∧ sms_extract_status (statusPayload "sending") = "pending"
    ∧ sms_extract_status (statusPayload "sent") = "sent"
    ∧ sms_extract_status (statusPayload "delivered") = "delivered"
    ∧ sms_extract_status (statusPayload "undelivered") = "failed"
    ∧ sms_extract_status (statusPayload "failed") = "failed"
    ∧ (s ∉ ["queued", "sending", "sent", "delivered", "undelivered", "failed"] →
        sms_extract_status (statusPayload s) = "unknown")
    ∧ email_extract_status (statusPayload "pending") = "pending"
    ∧ email_extract_status (statusPayload "deferred") = "pending"
    ∧ email_extract_status (statusPayload "processed") = "sent"
    ∧ email_extract_status (statusPayload "delivered") = "delivered"
    ∧ email_extract_status (statusPayload "dropped") = "failed"
    ∧ email_extract_status (statusPayload "bounce") = "failed"
    ∧ email_extract_status (statusPayload "blocked") = "failed"
    ∧ (s ∉ ["pending", "deferred", "processed", "delivered", "dropped", "bounce",
          "blocked"] →
        email_extract_status (statusPayload s) = "unknown") := by
  refine ⟨by decide, by decide, by decide, by decide, by decide, by decide, ?_,
    by decide, by decide, by decide, by decide, by decide, by decide, by decide, ?_⟩
  · intro h
    simp only [List.mem_cons, List.mem_singleton, not_or] at h
    obtain ⟨h1, h2, h3, h4, h5, h6, -⟩ := h
    have b1 : (s == "queued") = false := by simp [h1]
    have b2 : (s == "sending") = false := by simp [h2]
    have b3 : (s == "sent") = false := by simp [h3]
    have b4 : (s == "delivered") = false := by simp [h4]
    have b5 : (s == "undelivered") = false := by simp [h5]
    have b6 : (s == "failed") = false := by simp [h6]
    simp [sms_extract_status, statusPayload, Payload.lookup, pyStr,
      sms_status_mapping, List.lookup, b1, b2, b3, b4, b5, b6]
  · intro h
    simp only [List.mem_cons, List.mem_singleton, not_or] at h
    obtain ⟨h1, h2, h3, h4, h5, h6, h7, -⟩ := h
    have b1 : (s == "pending") = false := by simp [h1]
    have b2 : (s == "deferred") = false := by simp [h2]
    have b3 : (s == "processed") = false := by simp [h3]
    have b4 : (s == "delivered") = false := by simp [h4]
    have b5 : (s == "dropped") = false := by simp [h5]
    have b6 : (s == "bounce") = false := by simp [h6]
    have b7 : (s == "blocked") = false := by simp [h7]
    simp [email_extract_status, statusPayload, Payload.lookup, pyStr,
      email_status_mapping, List.lookup, b1, b2, b3, b4, b5, b6, b7]

/-- Witness for C4: the catch-all rows at the unlisted status `"bogus"`. -/
theorem extract_status_tables_witness :
    sms_extract_status (statusPayload "bogus") = "unknown"
    ∧ email_extract_status (statusPayload "bogus") = "unknown" :=
  ⟨(extract_status_tables "bogus").2.2.2.2.2.2.1 (by decide),
   (extract_status_tables "bogus").2.2.2.2.2.2.2.2.2.2.2.2.2.2 (by decide)⟩

/-- C10: every successfully processed inbound webhook, SMS/MMS or email,
answers with a canonical message whose `direction` is `"inbound"` and whose
`status` is `"delivered"`, independent of the payload. -/
theorem inbound_webhook_always_delivered (fromiso : String → Option Int) (now : Int)
    (st : AppState) (p : Payload) :
    (∀ r : MessageResponse, (sms_process_webhook fromiso now st p).1 = .ok r →
      r.direction = "inbound" ∧ r.status = "delivered")
    ∧ (∀ r : MessageResponse, (email_process_webhook fromiso now st p).1 = .ok r →
      r.direction = "inbound" ∧ r.status = "delivered") := by
  constructor
  · intro r h
    rcases hv : sms_validate fromiso now p with e | request
    · simp [sms_process_webhook, hv] at h
    · simp [sms_process_webhook, hv] at h
      rw [← h]
      exact ⟨rfl, rfl⟩
  · intro r h
    rcases hv : email_validate fromiso now p with e | request
    · simp [email_process_webhook, hv] at h
    · simp [email_process_webhook, hv] at h
      rw [← h]
      exact ⟨rfl, rfl⟩

/-- The response the SMS pipeline computes for the minimal unified payload
used in the C10 witness. -/
def c10SampleResponse : MessageResponse :=
  { id := 0, conversation_id := 0, provider_type := "sms", provider_message_id := "m1",
    from_address := "+1", to_address := "+2", body := "hi", attachments := [],
    direction := "inbound", status := "delivered", message_timestamp := 0,
    created_at := 0, updated_at := 0 }

/-- Witness for C10: a concrete unified SMS payload processed from the empty
store yields exactly `c10SampleResponse`, and the theorem applies to it. -/
theorem inbound_webhook_always_delivered_witness :
    (sms_process_webhook (fun _ => none) 0 ⟨⟨[], 0⟩, [], 0⟩
        ⟨[("from", .s "+1"), ("to", .s "+2"), ("body", .s "hi"),
          ("messaging_provider_id", .s "m1"), ("type", .s "sms")]⟩).1
      = .ok c10SampleResponse
    ∧ c10SampleResponse.direction = "inbound" ∧ c10SampleResponse.status = "delivered" :=
  ⟨by rfl,
   (inbound_webhook_always_delivered (fun _ => none) 0 ⟨⟨[], 0⟩, [], 0⟩
       ⟨[("from", .s "+1"), ("to", .s "+2"), ("body", .s "hi"),
         ("messaging_provider_id", .s "m1"), ("type", .s "sms")]⟩).1
     c10SampleResponse (by rfl)⟩

/-- The SMS payload carrying both the unified and the provider keys, used to
exhibit the `from`-over-`From` precedence. -/
def c5SmsBothPayload : Payload :=
  ⟨[("from", .s "+1"), ("From", .s "+9"), ("to", .s "+2"), ("To", .s "+8"),
    ("body", .s "hi"), ("Body", .s "yo"), ("messaging_provider_id", .s "m1"),
    ("MessageSid", .s "SM9"), ("type", .s "sms")]⟩

/-- The email payload carrying both the provider and the unified keys, used to
exhibit the `from_email`-over-`from` precedence. -/
def c5EmailBothPayload : Payload :=
  ⟨[("from_email", .s "a@x"), ("from", .s "b@y"), ("to_email", .s "c@z"),
    ("to", .s "d@w"), ("content", .s "hello"), ("body", .s "unified-body"),
    ("x_message_id", .s "e1"), ("xillio_id", .s "u1")]⟩

/-- C5: format detection is by key presence in fixed precedence order.
For SMS/MMS, a `from` key selects the unified normalization even when `From`
is also present, else a `From` key selects the provider normalization; for
email, `from_email` selects the provider normalization even when `from` is
also present, else `from` selects the unified one; with neither key the
result is `UnrecognizedFormat`.  The two concrete both-keys payloads show the
precedence observably: the provider_message_id comes from the shape that won. -/
theorem webhook_format_detection (fromiso : String → Option Int) (now : Int)
    (p : Payload) :
    (p.hasKey "from" = true →
      sms_validate fromiso now p = sms_finish fromiso now (sms_extract_unified p))
    ∧ (p.hasKey "from" = false → p.hasKey "From" = true →
      sms_validate fromiso now p = sms_finish fromiso now (sms_extract_provider p))
    ∧ (p.hasKey "from" = false → p.hasKey "From" = false →
      sms_validate fromiso now p = .error .UnrecognizedFormat)
    ∧ (p.hasKey "from_email" = true →
      email_validate fromiso now p = email_finish fromiso now (email_extract_provider p))
    ∧ (p.hasKey "from_email" = false → p.hasKey "from" = true →
      email_validate fromiso now p = email_finish fromiso now (email_extract_unified p))
    ∧ (p.hasKey "from_email" = false → p.hasKey "from" = false →
      email_validate fromiso now p = .error .UnrecognizedFormat)
    ∧ sms_validate fromiso now c5SmsBothPayload
      = .ok { from_address := "+1", to_address := "+2", body := "hi", attachments := [],
              provider_message_id := "m1", timestamp := now, provider_type := "sms" }
    ∧ email_validate fromiso now c5EmailBothPayload
      = .ok { from_address := "a@x", to_address := "c@z", body := "hello",
              attachments := [], provider_message_id := "e1", timestamp := now,
              provider_type := "email" } := by
  refine ⟨?_, ?_, ?_, ?_, ?_, ?_, rfl, rfl⟩
  · intro h1
    simp [sms_validate, h1]
  · intro h1 h2
    simp [sms_validate, h1, h2]
  · intro h1 h2
    simp [sms_validate, h1, h2]
  · intro h1
    simp [email_validate, h1]
  · intro h1 h2
    simp [email_validate, h1, h2]
  · intro h1 h2
    simp [email_validate, h1, h2]

/-- Witness for C5: the unrecognized payload `{foo: bar}` is rejected with
`UnrecognizedFormat` on both channels. -/
theorem webhook_format_detection_witness :
    sms_validate (fun _ => none) 0 ⟨[("foo", .s "bar")]⟩ = .error .UnrecognizedFormat
    ∧ email_validate (fun _ => none) 0 ⟨[("foo", .s "bar")]⟩ = .error .UnrecognizedFormat :=
  ⟨(webhook_format_detection (fun _ => none) 0 ⟨[("foo", .s "bar")]⟩).2.2.1 rfl rfl,
   (webhook_format_detection (fun _ => none) 0 ⟨[("foo", .s "bar")]⟩).2.2.2.2.2.1 rfl rfl⟩

theorem parse_timestamp_cases (fromiso : String → Option Int) (now : Int)
    (o : Option String) :
    (∃ t, parse_timestamp fromiso now o = .ok t)
    ∨ (∃ s, parse_timestamp fromiso now o = .error (.InvalidTimestamp s)) := by
  rcases o with _ | s
  · exact Or.inl ⟨now, rfl⟩
  · by_cases hs : s = ""
    · exact Or.inl ⟨now, by simp [parse_timestamp, hs]⟩
    · rcases hf : fromiso (s.replace "Z" "+00:00") with _ | t
      · exact Or.inr ⟨s, by simp [parse_timestamp, hs, hf]⟩
      · exact Or.inl ⟨t, by simp [parse_timestamp, hs, hf]⟩

theorem sms_finish_valid_pt_no_invalid_provider_type (fromiso : String → Option Int)
    (now : Int) (r : RawSms)
    (hpt : r.provider_type = "sms" ∨ r.provider_type = "mms") (v : String) :
    sms_finish fromiso now r ≠ .error (.InvalidProviderType v) := by
  intro hcon
  unfold sms_finish at hcon
  split_ifs at hcon with h1 h2 h3 h4 h5 <;>
    first
      | simp at hcon
      | (rcases parse_timestamp_cases fromiso now r.timestamp_str with ⟨t, ht⟩ | ⟨s, hs⟩
         · rw [ht] at hcon
           simp [Except.map] at hcon
         · rw [hs] at hcon
           simp [Except.map] at hcon)

/-- C6 (amended): for the unified SMS/MMS shape with the four core fields
present, an empty or absent `type` fails with `MissingField "provider_type"`
(not `InvalidProviderType`), a non-empty `type` outside `{sms, mms}` fails
with `InvalidProviderType`, and `sms`/`mms` pass the provider-type checks with
the result determined by the timestamp step; for the provider-native shape,
`provider_type` is derived as `mms` exactly when media attachments are present
and the validator never raises `InvalidProviderType`; `get_provider_type`
(classify) returns `mms` exactly when the outbound attachments are non-empty
and `sms` otherwise. -/
theorem provider_type_determination (fromiso : String → Option Int) (now : Int) :
    (∀ p : Payload, p.hasKey "from" = true →
      (sms_extract_unified p).from_address ≠ "" →
      (sms_extract_unified p).to_address ≠ "" →
      (sms_extract_unified p).body ≠ "" →
      (sms_extract_unified p).provider_message_id ≠ "" →
      (((sms_extract_unified p).provider_type = "" →
          sms_validate fromiso now p = .error (.MissingField "provider_type"))
        ∧ ((sms_extract_unified p).provider_type ≠ "" →
            (sms_extract_unified p).provider_type ≠ "sms" →
            (sms_extract_unified p).provider_type ≠ "mms" →
            sms_validate fromiso now p
              = .error (.InvalidProviderType (sms_extract_unified p).provider_type))
        ∧ (((sms_extract_unified p).provider_type = "sms"
              ∨ (sms_extract_unified p).provider_type = "mms") →
            sms_validate fromiso now p
              = (parse_timestamp fromiso now (sms_extract_unified p).timestamp_str).map
                  (fun ts =>
                    { from_address := (sms_extract_unified p).from_address
                      to_address := (sms_extract_unified p).to_address
                      body := (sms_extract_unified p).body
                      attachments := (sms_extract_unified p).attachments
                      provider_message_id := (sms_extract_unified p).provider_message_id
                      timestamp := ts
                      provider_type := (sms_extract_unified p).provider_type }))))
    ∧ (∀ p : Payload, (sms_extract_provider p).provider_type
        = if (p.getList "MediaUrl").isEmpty then "sms" else "mms")
    ∧ (∀ p : Payload, p.hasKey "from" = false → p.hasKey "From" = true →
        ∀ v : String, sms_validate fromiso now p ≠ .error (.InvalidProviderType v))
    ∧ (∀ request : SendMessageRequest,
        (sms_get_provider_type request = "mms"
          ↔ ∃ l, request.attachments = some l ∧ l ≠ [])
        ∧ (sms_get_provider_type request = "sms"
          ↔ (request.attachments = none ∨ request.attachments = some []))) := by
  refine ⟨?_, ?_, ?_, ?_⟩
  · intro p hk h1 h2 h3 h4
    refine ⟨?_, ?_, ?_⟩
    · intro h5
      simp [sms_validate, hk, sms_finish, h1, h2, h3, h4, h5]
    · intro h5 h6 h7
      simp [sms_validate, hk, sms_finish, h1, h2, h3, h4, h5, h6, h7]
    · intro h5
      rcases h5 with h5 | h5 <;>
        simp [sms_validate, hk, sms_finish, h1, h2, h3, h4, h5]
  · intro p
    rfl
  · intro p hk1 hk2 v
    have heq : sms_validate fromiso now p
        = sms_finish fromiso now (sms_extract_provider p) := by
      simp [sms_validate, hk1, hk2]
    rw [heq]
    apply sms_finish_valid_pt_no_invalid_provider_type
    by_cases h : (p.getList "MediaUrl").isEmpty <;> simp [sms_extract_provider, h]
  · intro request
    constructor
    · rcases hr : request.attachments with _ | l
      · simp [sms_get_provider_type, pyTruthyAttachments, hr]
      · rcases l with _ | ⟨a, t⟩
        · simp [sms_get_provider_type, pyTruthyAttachments, hr]
        · simp [sms_get_provider_type, pyTruthyAttachments, hr]
    · rcases hr : request.attachments with _ | l
      · simp [sms_get_provider_type, pyTruthyAttachments, hr]
      · rcases l with _ | ⟨a, t⟩
        · simp [sms_get_provider_type, pyTruthyAttachments, hr]
        · simp [sms_get_provider_type, pyTruthyAttachments, hr]

/-- The unified SMS payload with the four core fields but no `type` key. -/
def c6NoTypePayload : Payload :=
  ⟨[("from", .s "+1"), ("to", .s "+2"), ("body", .s "hi"),
    ("messaging_provider_id", .s "m1")]⟩

/-- Counterexample to C6 as stated: when `provider_type` is absent from the
unified SMS shape, validation fails with `MissingField "provider_type"` (the
`Missing required field` check fires first), not with `InvalidProviderType`
as the claim requires for every violation of "present and exactly sms or
mms". -/
theorem provider_type_missing_is_missing_field :
    sms_validate (fun _ => none) 0 c6NoTypePayload
      = .error (.MissingField "provider_type")
    ∧ sms_validate (fun _ => none) 0 c6NoTypePayload
      ≠ .error (.InvalidProviderType "") := by
  constructor
  · rfl
  · intro hcon
    rw [show sms_validate (fun _ => none) 0 c6NoTypePayload
        = .error (.MissingField "provider_type") from rfl] at hcon
    simp at hcon

/-- Witness for C6 (amended): a unified payload with `type = "email"` is
rejected with `InvalidProviderType "email"`; classify returns `mms` for a
request with one attachment and `sms` for a request with none. -/
theorem provider_type_determination_witness :
    sms_validate (fun _ => none) 0
        ⟨[("from", .s "+1"), ("to", .s "+2"), ("body", .s "hi"),
          ("messaging_provider_id", .s "m1"), ("type", .s "email")]⟩
      = .error (.InvalidProviderType "email")
    ∧ sms_get_provider_type
        { from_address := "+1", to_address := "+2", body := "hi",
          attachments := some ["http://x/img.jpg"], timestamp := 0 } = "mms"
    ∧ sms_get_provider_type
        { from_address := "+1", to_address := "+2", body := "hi",
          attachments := none, timestamp := 0 } = "sms" :=
  ⟨((provider_type_determination (fun _ => none) 0).1
        ⟨[("from", .s "+1"), ("to", .s "+2"), ("body", .s "hi"),
          ("messaging_provider_id", .s "m1"), ("type", .s "email")]⟩
        rfl (by decide) (by decide) (by decide) (by decide)).2.1
      (by decide) (by decide) (by decide),
   ((provider_type_determination (fun _ => none) 0).2.2.2
       { from_address := "+1", to_address := "+2", body := "hi",
         attachments := some ["http://x/img.jpg"], timestamp := 0 }).1.mpr
     ⟨["http://x/img.jpg"], rfl, by decide⟩,
   ((provider_type_determination (fun _ => none) 0).2.2.2
       { from_address := "+1", to_address := "+2", body := "hi",
         attachments := none, timestamp := 0 }).2.mpr (Or.inl rfl)⟩

/-- C7 (amended): a provided non-empty timestamp string is parsed through
`fromisoformat` after the `Z` → `+00:00` replacement — success yields the
parsed instant, failure yields `InvalidTimestamp` and the pipeline persists
nothing (state unchanged); an absent or empty-string timestamp (both falsy in
the source's `if timestamp_str:`) silently defaults to the injected clock's
current UTC time. -/
theorem timestamp_validation (fromiso : String → Option Int) (now : Int) :
    (∀ s : String, s ≠ "" → fromiso (s.replace "Z" "+00:00") = none →
      parse_timestamp fromiso now (some s) = .error (.InvalidTimestamp s))
    ∧ (∀ (s : String) (t : Int), s ≠ "" → fromiso (s.replace "Z" "+00:00") = some t →
      parse_timestamp fromiso now (some s) = .ok t)
    ∧ parse_timestamp fromiso now none = .ok now
    ∧ parse_timestamp fromiso now (some "") = .ok now
    ∧ (∀ (p : Payload) (s : String), p.hasKey "from" = true →
        (sms_extract_unified p).from_address ≠ "" →
        (sms_extract_unified p).to_address ≠ "" →
        (sms_extract_unified p).body ≠ "" →
        (sms_extract_unified p).provider_message_id ≠ "" →
        ((sms_extract_unified p).provider_type = "sms"
          ∨ (sms_extract_unified p).provider_type = "mms") →
        (sms_extract_unified p).timestamp_str = some s → s ≠ "" →
        fromiso (s.replace "Z" "+00:00") = none →
        sms_validate fromiso now p = .error (.InvalidTimestamp s))
    ∧ (∀ (st : AppState) (p : Payload) (e : VErr),
        (sms_process_webhook fromiso now st p).1 = .error e →
        (sms_process_webhook fromiso now st p).2 = st)
    ∧ (∀ (st : AppState) (p : Payload) (e : VErr),
        (email_process_webhook fromiso now st p).1 = .error e →
        (email_process_webhook fromiso now st p).2 = st) := by
  refine ⟨?_, ?_, rfl, rfl, ?_, ?_, ?_⟩
  · intro s hs hf
    simp [parse_timestamp, hs, hf]
  · intro s t hs hf
    simp [parse_timestamp, hs, hf]
  · intro p s hk h1 h2 h3 h4 hpt hts hs hf
    rcases hpt with hpt | hpt <;>
      simp [sms_validate, hk, sms_finish, h1, h2, h3, h4, hpt, hts,
        parse_timestamp, hs, hf, Except.map]
  · intro st p e h
    rcases hv : sms_validate fromiso now p with e' | request
    · simp [sms_process_webhook, hv]
    · simp [sms_process_webhook, hv] at h
  · intro st p e h
    rcases hv : email_validate fromiso now p with e' | request
    · simp [email_process_webhook, hv]
    · simp [email_process_webhook, hv] at h

/-- The unified SMS payload whose timestamp is the empty string. -/
def c7EmptyTsPayload : Payload :=
  ⟨[("from", .s "+1"), ("to", .s "+2"), ("body", .s "hi"),
    ("messaging_provider_id", .s "m1"), ("type", .s "sms"), ("timestamp", .s "")]⟩

/-- Counterexample to C7 as stated: the timestamp field is provided with the
malformed value `""` (which no ISO-8601 parser accepts — the instantiated
parser here rejects it explicitly), yet validation succeeds, defaulting the
timestamp to the clock value `77`, instead of failing with
`InvalidTimestamp`: the source's `if timestamp_str:` treats the empty string
like an absent field. -/
theorem empty_timestamp_not_rejected :
    sms_validate (fun s => if s = "" then none else some 0) 77 c7EmptyTsPayload
      = .ok { from_address := "+1", to_address := "+2", body := "hi",
              attachments := [], provider_message_id := "m1", timestamp := 77,
              provider_type := "sms" }
    ∧ sms_validate (fun s => if s = "" then none else some 0) 77 c7EmptyTsPayload
      ≠ .error (.InvalidTimestamp "") := by
  constructor
  · rfl
  · intro hcon
    rw [show sms_validate (fun s => if s = "" then none else some 0) 77 c7EmptyTsPayload
        = .ok { from_address := "+1", to_address := "+2", body := "hi",
                attachments := [], provider_message_id := "m1", timestamp := 77,
                provider_type := "sms" } from rfl] at hcon
    simp at hcon

/-- Witness for C7 (amended): a parser rejecting everything makes
`"not-a-date"` fail with `InvalidTimestamp "not-a-date"`, and a parser
returning 42 makes `"2024-01-01T00:00:00Z"` parse to 42. -/
theorem timestamp_validation_witness :
    parse_timestamp (fun _ => none) 0 (some "not-a-date")
      = .error (.InvalidTimestamp "not-a-date")
    ∧ parse_timestamp (fun _ => some 42) 0 (some "2024-01-01T00:00:00Z") = .ok 42 :=
  ⟨(timestamp_validation (fun _ => none) 0).1 "not-a-date" (by decide) rfl,
   (timestamp_validation (fun _ => some 42) 0).2.1 "2024-01-01T00:00:00Z" 42
     (by decide) rfl⟩

/-- The first of the four core fields (in the source's check order) that
extracted to the empty string, if any — the field a `MissingField` failure
names. -/
def firstMissingCore (fa ta b pmid : String) : Option String :=
  if fa = "" then some "from_address"
  else if ta = "" then some "to_address"
  else if b = "" then some "body"
  else if pmid = "" then some "provider_message_id"
  else none

/-- The unified SMS payload of the claim's example: no `body` key. -/
def c8NoBodyPayload : Payload :=
  ⟨[("from", .s "+1"), ("to", .s "+2"), ("messaging_provider_id", .s "m1"),
    ("type", .s "sms")]⟩

/-- C8: in a recognized shape, whenever one of `from_address`, `to_address`,
`body`, `provider_message_id` is missing or extracts empty, validation fails
with `MissingField` naming the first such field in check order (in particular
the one missing field when only one is missing); when all four are non-empty
no `MissingField` error over these four names is possible.  The claim's
example: the unified SMS payload without `body` fails with
`MissingField "body"`, not a generic error. -/
theorem missing_field_errors (fromiso : String → Option Int) (now : Int) :
    (∀ (r : RawSms) (f : String),
      firstMissingCore r.from_address r.to_address r.body r.provider_message_id
          = some f →
      sms_finish fromiso now r = .error (.MissingField f))
    ∧ (∀ r : RawSms,
      firstMissingCore r.from_address r.to_address r.body r.provider_message_id
          = none →
      ∀ g ∈ (["from_address", "to_address", "body", "provider_message_id"] :
          List String),
        sms_finish fromiso now r ≠ .error (.MissingField g))
    ∧ (∀ (r : RawEmail) (f : String),
      firstMissingCore r.from_address r.to_address r.body r.provider_message_id
          = some f →
      email_finish fromiso now r = .error (.MissingField f))
    ∧ (∀ r : RawEmail,
      firstMissingCore r.from_address r.to_address r.body r.provider_message_id
          = none →
      ∀ g ∈ (["from_address", "to_address", "body", "provider_message_id"] :
          List String),
        email_finish fromiso now r ≠ .error (.MissingField g))
    ∧ sms_validate fromiso now c8NoBodyPayload = .error (.MissingField "body") := by
  refine ⟨?_, ?_, ?_, ?_, rfl⟩
  · intro r f h
    unfold firstMissingCore at h
    split_ifs at h with h1 h2 h3 h4 <;> simp only [Option.some.injEq] at h <;>
      rw [← h] <;> simp [sms_finish, *]
  · intro r h g hg hcon
    unfold firstMissingCore at h
    split_ifs at h with h1 h2 h3 h4
    unfold sms_finish at hcon
    rw [if_neg h1, if_neg h2, if_neg h3, if_neg h4] at hcon
    split_ifs at hcon with h5 h6 <;>
      first
        | (simp only [Except.error.injEq, VErr.MissingField.injEq] at hcon
           simp only [List.mem_cons, List.not_mem_nil, or_false] at hg
           rcases hg with hg | hg | hg | hg <;> subst hg <;> exact absurd hcon (by decide))
        | simp at hcon
        | (rcases parse_timestamp_cases fromiso now r.timestamp_str with ⟨t, ht⟩ | ⟨s, hs⟩
           · rw [ht] at hcon
             simp [Except.map] at hcon
           · rw [hs] at hcon
             simp [Except.map] at hcon)
  · intro r f h
    unfold firstMissingCore at h
    split_ifs at h with h1 h2 h3 h4 <;> simp only [Option.some.injEq] at h <;>
      rw [← h] <;> simp [email_finish, *]
  · intro r h g hg hcon
    unfold firstMissingCore at h
    split_ifs at h with h1 h2 h3 h4
    unfold email_finish at hcon
    rw [if_neg h1, if_neg h2, if_neg h3, if_neg h4] at hcon
    split_ifs at hcon with h5 h6 <;>
      first
        | simp at hcon
        | (rcases parse_timestamp_cases fromiso now r.timestamp_str with ⟨t, ht⟩ | ⟨s, hs⟩
           · rw [ht] at hcon
             simp [Except.map] at hcon
           · rw [hs] at hcon
             simp [Except.map] at hcon)

/-- Witness for C8: a raw SMS record whose only empty core field is `body`
fails with exactly `MissingField "body"`. -/
theorem missing_field_errors_witness :
    sms_finish (fun _ => none) 0
        { from_address := "+1", to_address := "+2", body := "",
          provider_message_id := "m1", provider_type := "sms", attachments := [],
          timestamp_str := none }
      = .error (.MissingField "body") :=
  (missing_field_errors (fun _ => none) 0).1
    { from_address := "+1", to_address := "+2", body := "",
      provider_message_id := "m1", provider_type := "sms", attachments := [],
      timestamp_str := none }
    "body" (by decide)
